import Mathlib

/-!
Shallow embedding of `app.py` (aromain/chess_analyser): the parallel
position-analysis pipeline.  Pure functions of the source are translated to
Lean functions; the shared mutable progress registry becomes explicit state
passing, and the background job becomes a function producing the sequence of
registry-entry states (one per observable update).  Engine / oracle calls are
an external collaborator and are modelled at their interface boundary: each
call either raises (an `Except.error`) or returns a ranked list of
`(move, score)` candidates, with scores already converted to White's
perspective and mate scores clamped to ±10000 (so an unresolvable score is
`none`).
-/

namespace ChessAnalyser

/-- A move, identified by its SAN rendering (the chess library itself is an
external collaborator; moves are opaque identifiers here). -/
abbrev Move := String

/-- The slice of the chess library's board state that `app.py` reads:
the side to move (`turn`, `true` = White as in `chess.WHITE`), the 1-based
`fullmove_number`, and the position itself, represented by the history of
moves applied since the initial position. -/
structure Board where
  hist : List Move
  turn : Bool
  fullmove : Nat
deriving DecidableEq, Repr

/-- The standard initial position of `chess.Board()`: White to move,
fullmove number 1. -/
def Board.initial : Board := ⟨[], true, 1⟩

/-- Playing a move, `board.push(move)`: the move is appended to the history, the side to move
flips, and the fullmove number increments after Black's move. -/
def Board.push (b : Board) (m : Move) : Board :=
  { hist := b.hist ++ [m]
    turn := !b.turn
    fullmove := if b.turn then b.fullmove else b.fullmove + 1 }

/-- Apply a sequence of moves in order. -/
def Board.pushAll (b : Board) (ms : List Move) : Board :=
  ms.foldl Board.push b

/-- The `position_data` dictionary built by `analyze_pgn_async` (lines
197-202): the board as copied before the move, the fullmove number, the side
to move rendered as in the source, and the owning game's 1-based number. -/
structure PositionTask where
  board : Board
  move_number : Nat
  turn : String
  game_number : Nat
deriving DecidableEq, Repr

/-- One ranked candidate of the oracle's output: a move together with its
signed evaluation from White's perspective after `score(mate_score=10000)`;
`none` when the score is unresolvable. -/
structure Candidate where
  move : Move
  score : Option Int
deriving DecidableEq, Repr

/-- The record built at lines 111-120 of `app.py`.  `fen` keeps the board
snapshot itself (the source stores `board.board_fen()`, a rendering of this
value by the external chess library); the two `_eval` fields keep the clamped
integer evaluations that the source renders with `str`. -/
structure CriticalMoment where
  fen : Board
  move_number : Nat
  turn : String
  best_move : Move
  best_move_eval : Int
  second_best_move : Move
  second_best_move_eval : Int
  difference : ℚ
deriving DecidableEq, Repr

/-- The threshold `EVAL_DIFFERENCE_THRESHOLD` (line 22 of `app.py`). -/
def EVAL_DIFFERENCE_THRESHOLD : Nat := 100

/-- One engine session as `analyze_position` uses it: spawning the engine
(line 82), the single-line probe (line 86, `multipv=1`) and the candidate
analysis (line 92, `multipv=3`).  Each step either raises or returns. -/
structure Oracle where
  spawn : Except String Unit
  probe : Except String (List Candidate)
  analyse : Except String (List Candidate)
deriving Repr

/-- The body of the `try` block of `analyze_position` (lines 80-125):
`Except.error` is a raised exception.  `configure_stockfish` catches its own
exceptions and is a no-op here. -/
def tryBody (o : Oracle) (pd : PositionTask) : Except String (Option CriticalMoment) :=
  match o.spawn with
  | .error e => .error e
  | .ok _ =>
    match o.probe with
    | .error e => .error e
    | .ok position_before =>
      if position_before.isEmpty then .ok none
      else
        match o.analyse with
        | .error e => .error e
        | .ok info =>
          match info with
          | c1 :: c2 :: _ =>
            match c1.score, c2.score with
            | some eval1_cp, some eval2_cp =>
              let difference := (eval1_cp - eval2_cp).natAbs
              if EVAL_DIFFERENCE_THRESHOLD < difference ∧ (-50 < eval2_cp ∧ eval2_cp < 50) then
                .ok (some
                  { fen := pd.board
                    move_number := pd.move_number
                    turn := pd.turn
                    best_move := c1.move
                    best_move_eval := eval1_cp
                    second_best_move := c2.move
                    second_best_move_eval := eval2_cp
                    difference := (difference : ℚ) / 100 })
              else .ok none
            | _, _ => .ok none
          | _ => .ok none

/-- The function `analyze_position` (lines 65-131): the surrounding `except` clause turns
every raised exception into `None`. -/
def analyze_position (o : Oracle) (pd : PositionTask) : Option CriticalMoment :=
  match tryBody o pd with
  | .ok r => r
  | .error _ => none

/-- The constant `MAX_WORKERS = os.cpu_count() or 4` (line 26): Python's `or` falls
through on the falsy values `None` and `0` only. -/
def MAX_WORKERS (cpuCount : Option Nat) : Nat :=
  match cpuCount with
  | none => 4
  | some n => if n = 0 then 4 else n

/-- One parsed game, as `chess.pgn.read_game` hands it to the loader: the
PGN headers as an association list and the mainline moves.  `game.board()`
is the standard initial position (`Board.initial`). -/
structure Game where
  headers : List (String × String)
  moves : List Move
deriving DecidableEq, Repr

/-- Header lookup `game.headers.get(key, default)`. -/
def headerGet (hs : List (String × String)) (key default : String) : String :=
  (hs.lookup key).getD default

/-- The per-game metadata record `game_info` (lines 182-190 of `app.py`). -/
structure GameInfo where
  game_number : Nat
  white : String
  black : String
  result : String
  date : String
  event : String
  critical_moments : List CriticalMoment
deriving DecidableEq, Repr

/-- Builds `game_info` for the game with 1-based number `n` (lines 182-190). -/
def gameInfoOf (n : Nat) (g : Game) : GameInfo :=
  { game_number := n
    white := headerGet g.headers "White" "Inconnu"
    black := headerGet g.headers "Black" "Inconnu"
    result := headerGet g.headers "Result" "*"
    date := headerGet g.headers "Date" "Inconnu"
    event := headerGet g.headers "Event" "Inconnu"
    critical_moments := [] }

/-- The inner loop of the first pass (lines 192-207): for each mainline move,
record the position before the move is played, then push the move. -/
def positionsFrom (gameNumber : Nat) (b : Board) : List Move → List PositionTask
  | [] => []
  | m :: ms =>
    { board := b
      move_number := b.fullmove
      turn := if b.turn then "Blancs" else "Noirs"
      game_number := gameNumber } :: positionsFrom gameNumber (b.push m) ms

/-- The first pass of `analyze_pgn_async` (lines 173-209) starting from game
count `n`: returns (`all_games`, `all_positions`). -/
def collectAux : Nat → List Game → List GameInfo × List PositionTask
  | _, [] => ([], [])
  | n, g :: gs =>
    let rest := collectAux (n + 1) gs
    (gameInfoOf (n + 1) g :: rest.1,
      positionsFrom (n + 1) Board.initial g.moves ++ rest.2)

/-- The first pass over the whole corpus (`game_count` starts at 0). -/
def collect (corpus : List Game) : List GameInfo × List PositionTask :=
  collectAux 0 corpus

/-- The Position Enumerator as this repository's design document words it:
for each game (corpus order, games numbered from 1), for each mainline ply
`k` (0-based, in ply order), one task capturing the board **before** that
ply's move — i.e. the initial position with the first `k` moves applied —
tagged with the 1-based move number `k / 2 + 1` and the side to move. -/
def specTasks (gameNumber : Nat) (g : Game) : List PositionTask :=
  (List.range g.moves.length).map fun k =>
    { board := Board.initial.pushAll (g.moves.take k)
      move_number := k / 2 + 1
      turn := if k % 2 = 0 then "Blancs" else "Noirs"
      game_number := gameNumber }

/-- Spec-side enumeration over the corpus, games numbered from `gameNumber`. -/
def enumeratorSpecAux (gameNumber : Nat) : List Game → List PositionTask
  | [] => []
  | g :: gs => specTasks gameNumber g ++ enumeratorSpecAux (gameNumber + 1) gs

/-- Spec-side enumeration over the corpus (games numbered from 1). -/
def enumeratorSpec (corpus : List Game) : List PositionTask :=
  enumeratorSpecAux 1 corpus

/-- One entry of the `analysis_progress` registry.  `progress` is stored as a
(mathematical) integer, as the source stores a Python `int`; `filename` is
`none` when the entry was created without that key (line 144). -/
structure Entry where
  filename : Option String := none
  status : String := "starting"
  progress : Int := 0
  total_moves : Nat := 0
  current_move : Nat := 0
  results : Option (List GameInfo) := none
  error : Option String := none
deriving DecidableEq, Repr

/-- The global `analysis_progress` dictionary. -/
def Registry := String → Option Entry

/-- The initialization step of `analyze_pgn_async` (lines 143-164): a missing
entry is created fresh (no `filename` key); an existing entry keeps every key
not listed in the `update` call — in particular `filename` — while the listed
fields are reset. -/
def resetEntry : Option Entry → Entry
  | none => {}
  | some e =>
    { e with status := "starting", progress := 0, total_moves := 0,
             current_move := 0, results := none, error := none }

/-- Starting a run for `analysis_id` rewrites that registry slot through
`resetEntry` and touches nothing else. -/
def startRun (r : Registry) (analysis_id : String) : Registry :=
  fun x => if x = analysis_id then some (resetEntry (r analysis_id)) else r x

/-- The fixed message of line 214. -/
def ERROR_EMPTY : String := "Le fichier PGN est invalide ou vide."

/-- Round a rational to the nearest integer, ties to the even integer —
the tie rule of IEEE 754 round-to-nearest. -/
def rnInt (x : ℚ) : Int :=
  if x - ⌊x⌋ < 1/2 then ⌊x⌋
  else if 1/2 < x - ⌊x⌋ then ⌊x⌋ + 1
  else if 2 ∣ ⌊x⌋ then ⌊x⌋ else ⌊x⌋ + 1

/-- The unit in the last place of a binary64 value of magnitude `x`:
with `e = ⌊log₂ x⌋` the 53-bit significand grid spaces points `2^(e-52)`
apart. -/
def ulpOf (x : ℚ) : ℚ := (2 : ℚ) ^ (Int.log 2 x - 52)

/-- Round a positive rational to the binary64 grid, nearest, ties to even
(normal range; the values of this program lie well inside it). -/
def roundPos (x : ℚ) : ℚ := (rnInt (x / ulpOf x) : ℚ) * ulpOf x

/-- IEEE 754 binary64 round-to-nearest-even of an exact rational value:
every Python float arithmetic result is the correctly rounded exact value,
so `a / b` computes `roundDouble (a / b)` and `u * v` computes
`roundDouble (u * v)` for doubles `u`, `v`. -/
def roundDouble (x : ℚ) : ℚ :=
  if x = 0 then 0 else if x < 0 then -roundPos (-x) else roundPos x

/-- The stored percentage `int(completed / total_positions * 100)` (lines
240-242), with Python's binary64 semantics: the division and the product are
each correctly rounded, and `int` truncates (for these non-negative values,
the floor).  Because of the two roundings this can differ from the exact
`floor(completed*100/total)` — e.g. 28 instead of 29 at 29 of 100.  (Python
never evaluates this with `total = 0`: the loop body requires a completed
future; the Lean term is total because `x / 0 = 0` on `ℚ`.) -/
def progressOf (completed total : Nat) : Int :=
  ⌊roundDouble (roundDouble ((completed : ℚ) / (total : ℚ)) * 100)⌋

/-- The exact floor `⌊completed * 100 / total⌋`, the reading of the
percentage formula in the specification's invariant. -/
def floorPercent (completed total : Nat) : Int :=
  ((completed * 100) / total : Nat)

/-- The registry entry after the completion event number `k` of a job with
`total` tasks has been recorded (lines 239-242), starting from the
`analyzing` entry `e`.  One completion event is one tracker update. -/
def stepEntry (e : Entry) (total k : Nat) : Entry :=
  { e with current_move := k, progress := progressOf k total }

/-- The entry states produced by the first `n` completion events. -/
def loopEntries (e : Entry) (total n : Nat) : List Entry :=
  (List.range n).map fun i => stepEntry e total (i + 1)

/-- Fault model for one run of `analyze_pgn_async`: no fault, an exception
raised before parsing (e.g. `open` failing), or an unexpected exception
during the analyzing phase after `k` completion events. -/
inductive RunFault where
  | noFault
  | atOpen (msg : String)
  | duringAnalyzing (k : Nat) (msg : String)
deriving DecidableEq, Repr

/-- Lines 247-252: append the moment to the first game whose `game_number`
matches (then `break`); no match drops the event. -/
def appendMoment : List GameInfo → Nat → CriticalMoment → List GameInfo
  | [], _, _ => []
  | g :: gs, n, cm =>
    if g.game_number = n then
      { g with critical_moments := g.critical_moments ++ [cm] } :: gs
    else g :: appendMoment gs n cm

/-- The fan-in of the pool (lines 235-254): tasks complete in the order
`order` (some permutation of the submitted tasks); each task is analyzed
against its oracle session `env` and a produced moment is appended to its
owning game. -/
def aggregateAll (games : List GameInfo) (env : PositionTask → Oracle)
    (order : List PositionTask) : List GameInfo :=
  order.foldl
    (fun gs t =>
      match analyze_position (env t) t with
      | some cm => appendMoment gs t.game_number cm
      | none => gs)
    games

/-- The sequence of registry-entry states of one run after initialization,
for a run whose `open` succeeded (lines 166-261): the empty-corpus early
return (lines 211-215), setting `total_moves` then `status` (lines 219-220),
one state per completion event, and either the unexpected-fault handler
(line 261, which only sets `error`) or finalization (lines 257-258). -/
def runStatesCore (e0 : Entry) (corpus : List Game) (env : PositionTask → Oracle)
    (order : List PositionTask) (fault : RunFault) : List Entry :=
  if (collect corpus).1.isEmpty then
    [e0, { e0 with error := some ERROR_EMPTY }]
  else
    let total := (collect corpus).2.length
    let e1 := { e0 with total_moves := total }
    let e2 := { e1 with status := "analyzing" }
    match fault with
    | .duringAnalyzing k msg =>
      [e0, e1, e2] ++ loopEntries e2 total (min k order.length) ++
        [{ stepEntry e2 total (min k order.length) with error := some msg }]
    | _ =>
      [e0, e1, e2] ++ loopEntries e2 total order.length ++
        [{ stepEntry e2 total order.length with status := "completed" },
         { stepEntry e2 total order.length with
             status := "completed"
             results := some (aggregateAll (collect corpus).1 env order) }]

/-- All registry-entry states of one `analyze_pgn_async` run for the job id,
beginning with the reset entry. -/
def runTrace (prior : Option Entry) (corpus : List Game) (env : PositionTask → Oracle)
    (order : List PositionTask) (fault : RunFault) : List Entry :=
  match fault with
  | .atOpen msg => [resetEntry prior, { resetEntry prior with error := some msg }]
  | f => runStatesCore (resetEntry prior) corpus env order f

/-- The final registry entry of a run whose `open` succeeded. -/
def runFinalCore (e0 : Entry) (corpus : List Game) (env : PositionTask → Oracle)
    (order : List PositionTask) (fault : RunFault) : Entry :=
  if (collect corpus).1.isEmpty then
    { e0 with error := some ERROR_EMPTY }
  else
    let total := (collect corpus).2.length
    let e2 := { e0 with total_moves := total, status := "analyzing" }
    match fault with
    | .duringAnalyzing k msg =>
      { stepEntry e2 total (min k order.length) with error := some msg }
    | _ =>
      { stepEntry e2 total order.length with
          status := "completed"
          results := some (aggregateAll (collect corpus).1 env order) }

/-- The final registry entry of one `analyze_pgn_async` run for the job id. -/
def runFinal (prior : Option Entry) (corpus : List Game) (env : PositionTask → Oracle)
    (order : List PositionTask) (fault : RunFault) : Entry :=
  match fault with
  | .atOpen msg => { resetEntry prior with error := some msg }
  | f => runFinalCore (resetEntry prior) corpus env order f

/-- The `/progress/<analysis_id>` endpoint's possible responses
(lines 317-330): a 404 payload for an unknown id, otherwise the whole stored
entry, serialized as-is by `jsonify`. -/
inductive PollResponse where
  | notFound (message : String)
  | ok (e : Entry)
deriving DecidableEq, Repr

/-- The endpoint handler `get_progress` (lines 317-330). -/
def get_progress (r : Registry) (analysis_id : String) : PollResponse :=
  match r analysis_id with
  | none => .notFound "Analyse non trouvée"
  | some e => .ok e

/-- The key set of the JSON object `jsonify(analysis_progress[id])` returns:
entries created by `upload_file` (lines 285-293) carry `filename`; entries
created by `analyze_pgn_async` (lines 143-151) do not; every entry carries
the other six keys. -/
def pollSnapshotKeys (e : Entry) : List String :=
  (match e.filename with | some _ => ["filename"] | none => []) ++
    ["status", "progress", "total_moves", "current_move", "results", "error"]

/-! ### Concrete fixtures used by witnesses and counterexamples -/

/-- An engine session whose every call raises. -/
def oracleDown : Oracle :=
  ⟨Except.error "engine unreachable", Except.error "engine unreachable",
    Except.error "engine unreachable"⟩

/-- An oracle environment in which every position's session raises. -/
def oracleDownEnv : PositionTask → Oracle := fun _ => oracleDown

/-- A sample position task: the initial position, move 1, White to move. -/
def taskZero : PositionTask := ⟨Board.initial, 1, "Blancs", 1⟩

/-- A well-behaved session: non-empty probe, two ranked candidates with
resolvable scores 200 and 10. -/
def oracleSample : Oracle :=
  ⟨Except.ok (), Except.ok [⟨"e4", some 30⟩],
    Except.ok [⟨"Nf3", some 200⟩, ⟨"d4", some 10⟩]⟩

/-- A parsed game with no headers and no moves. -/
def gameNoMoves : Game := ⟨[], []⟩

/-- A parsed game with no headers and one mainline move. -/
def gameOneMove : Game := ⟨[], ["e4"]⟩

/-- A parsed game with no headers and 100 mainline plies: a job over it has
100 position tasks. -/
def game100 : Game := ⟨[], List.replicate 100 "e4"⟩

/-- A finished job entry as `upload_file` plus a completed run would leave it. -/
def richEntry : Entry :=
  { filename := some "games.pgn", status := "completed", progress := 100,
    total_moves := 7, current_move := 7, results := some [], error := none }

/-- A registry holding exactly the job `"job1"`. -/
def sampleRegistry : Registry :=
  fun x => if x = "job1" then some richEntry else none

/-! ### Claim theorems -/

/-- C1: whenever the engine session works (spawn ok, non-empty probe) and the
oracle output has at least 2 ranked candidates whose clamped scores both
resolve, `analyze_position` returns a `CriticalMoment` record if and only if
the gap `|eval₁ − eval₂|` is strictly greater than the 100-centipawn
threshold and `eval₂` lies strictly within `(−50, 50)`; the returned record
has `difference = gap / 100`, and in all other cases the result is `none`. -/
theorem analyze_position_critical_iff (o : Oracle) (pd : PositionTask)
    (pb : List Candidate) (c1 c2 : Candidate) (rest : List Candidate)
    (eval1 eval2 : Int)
    (hspawn : o.spawn = Except.ok ()) (hprobe : o.probe = Except.ok pb)
    (hpb : pb ≠ []) (hinfo : o.analyse = Except.ok (c1 :: c2 :: rest))
    (h1 : c1.score = some eval1) (h2 : c2.score = some eval2) :
    analyze_position o pd =
      if EVAL_DIFFERENCE_THRESHOLD < (eval1 - eval2).natAbs ∧
          (-50 < eval2 ∧ eval2 < 50) then
        some { fen := pd.board
               move_number := pd.move_number
               turn := pd.turn
               best_move := c1.move
               best_move_eval := eval1
               second_best_move := c2.move
               second_best_move_eval := eval2
               difference := ((eval1 - eval2).natAbs : ℚ) / 100 }
      else none := by
  cases pb with
  | nil => exact absurd rfl hpb
  | cons p ps =>
    by_cases hc : EVAL_DIFFERENCE_THRESHOLD < (eval1 - eval2).natAbs ∧
        (-50 < eval2 ∧ eval2 < 50)
    · simp [analyze_position, tryBody, hspawn, hprobe, hinfo, h1, h2, hc]
    · simp [analyze_position, tryBody, hspawn, hprobe, hinfo, h1, h2, hc]

/-- Witness for C1 at a concrete input: scores 200 and 10 give gap 190 > 100
with 10 ∈ (−50, 50), hence a critical moment with difference 1.90. -/
theorem analyze_position_critical_iff_witness :
    analyze_position oracleSample taskZero =
      some { fen := Board.initial
             move_number := 1
             turn := "Blancs"
             best_move := "Nf3"
             best_move_eval := 200
             second_best_move := "d4"
             second_best_move_eval := 10
             difference := (190 : ℚ) / 100 } := by
  have h := analyze_position_critical_iff oracleSample taskZero
    [⟨"e4", some 30⟩] ⟨"Nf3", some 200⟩ ⟨"d4", some 10⟩ [] 200 10
    rfl rfl (by simp) rfl rfl rfl
  rw [h]
  norm_num [EVAL_DIFFERENCE_THRESHOLD, taskZero]

/-- C2: analyzing a single position converts every failure into "no result":
a raised exception anywhere in the session, an empty probe, fewer than 2
ranked candidates, or an unresolvable score all yield `none` (the `except`
clause at lines 127-131 of `app.py` never lets an error escape to the pool). -/
theorem analyze_position_failures (o : Oracle) (pd : PositionTask)
    (h : (∃ m, o.spawn = Except.error m) ∨ (∃ m, o.probe = Except.error m) ∨
         o.probe = Except.ok [] ∨ (∃ m, o.analyse = Except.error m) ∨
         (∃ info, o.analyse = Except.ok info ∧ info.length < 2) ∨
         (∃ c1 c2 rest, o.analyse = Except.ok (c1 :: c2 :: rest) ∧
            (c1.score = none ∨ c2.score = none))) :
    analyze_position o pd = none := by
  obtain ⟨sp, pr, an⟩ := o
  cases sp with
  | error m => rfl
  | ok u =>
    cases pr with
    | error m => rfl
    | ok pl =>
      cases pl with
      | nil => rfl
      | cons p ps =>
        cases an with
        | error m => rfl
        | ok info =>
          match info with
          | [] => rfl
          | [c] => rfl
          | c1 :: c2 :: rest =>
            obtain ⟨mv1, s1⟩ := c1
            obtain ⟨mv2, s2⟩ := c2
            cases s1 with
            | none => rfl
            | some e1 =>
              cases s2 with
              | none => rfl
              | some e2 =>
                exfalso
                rcases h with ⟨m, hm⟩ | ⟨m, hm⟩ | hm | ⟨m, hm⟩ |
                  ⟨info2, hm, hlen⟩ | ⟨a, b, l, hm, hs⟩
                · simp at hm
                · simp at hm
                · simp at hm
                · simp at hm
                · simp only [Oracle.analyse, Except.ok.injEq] at hm
                  subst hm
                  simp at hlen
                  omega
                · simp only [Oracle.analyse, Except.ok.injEq,
                    List.cons.injEq] at hm
                  obtain ⟨ha, hb, -⟩ := hm
                  subst ha
                  subst hb
                  simp at hs

/-- Witness for C2: the dead-engine session yields `none`, not an error. -/
theorem analyze_position_failures_witness :
    analyze_position oracleDown taskZero = none :=
  analyze_position_failures oracleDown taskZero
    (Or.inl ⟨"engine unreachable", rfl⟩)

/-- C7 counterexample: on a host reporting 2 CPUs the worker count is 2,
which is less than 4 — `or 4` is a fallback for a missing count, not a
minimum. -/
theorem MAX_WORKERS_claim_cex :
    MAX_WORKERS (some 2) = 2 ∧ ¬ (4 ≤ MAX_WORKERS (some 2)) := by decide

/-- C7 amended: the worker count equals the host's reported parallelism
whenever it is reported and non-zero, and falls back to 4 only when the count
is unavailable (or zero); it is not clamped to a minimum of 4. -/
theorem MAX_WORKERS_spec (n : Nat) (hn : n ≠ 0) :
    MAX_WORKERS (some n) = n ∧ MAX_WORKERS none = 4 ∧ MAX_WORKERS (some 0) = 4 := by
  refine ⟨?_, rfl, rfl⟩
  simp [MAX_WORKERS, hn]

/-- Witness for the amended C7 at a concrete host with 8 CPUs. -/
theorem MAX_WORKERS_spec_witness :
    MAX_WORKERS (some 8) = 8 ∧ MAX_WORKERS none = 4 ∧ MAX_WORKERS (some 0) = 4 :=
  MAX_WORKERS_spec 8 (by decide)

/-- C9 counterexample: with every header absent, the stored result tag is
`"*"` and the white name is `"Inconnu"` — neither is the free-text value
`"unknown"`. -/
theorem gameInfo_claim_cex :
    (gameInfoOf 1 { headers := [], moves := [] }).result = "*" ∧
    (gameInfoOf 1 { headers := [], moves := [] }).result ≠ "unknown" ∧
    (gameInfoOf 1 { headers := [], moves := [] }).white = "Inconnu" ∧
    (gameInfoOf 1 { headers := [], moves := [] }).white ≠ "unknown" := by
  decide

/-- C9 amended: absent white/black/date/event headers default to `"Inconnu"`
(French for "unknown") and an absent result header defaults to `"*"`. -/
theorem gameInfo_defaults (n : Nat) (g : Game)
    (hw : g.headers.lookup "White" = none) (hb : g.headers.lookup "Black" = none)
    (hr : g.headers.lookup "Result" = none) (hd : g.headers.lookup "Date" = none)
    (he : g.headers.lookup "Event" = none) :
    gameInfoOf n g =
      { game_number := n, white := "Inconnu", black := "Inconnu", result := "*",
        date := "Inconnu", event := "Inconnu", critical_moments := [] } := by
  simp [gameInfoOf, headerGet, hw, hb, hr, hd, he]

/-- Witness for the amended C9 at a game with no headers. -/
theorem gameInfo_defaults_witness :
    gameInfoOf 1 gameNoMoves =
      { game_number := 1, white := "Inconnu", black := "Inconnu", result := "*",
        date := "Inconnu", event := "Inconnu", critical_moments := [] } :=
  gameInfo_defaults 1 gameNoMoves rfl rfl rfl rfl rfl

/-- C10: re-starting a run for an id already in the registry preserves that
entry's `filename` while resetting status, progress, total_moves,
current_move, results and error to their initial values, and leaves every
other id's entry untouched. -/
theorem startRun_frame (r : Registry) (analysis_id : String) (e : Entry)
    (he : r analysis_id = some e) :
    startRun r analysis_id analysis_id =
      some { e with status := "starting", progress := 0, total_moves := 0,
                    current_move := 0, results := none, error := none } ∧
    (startRun r analysis_id analysis_id).map Entry.filename = some e.filename ∧
    ∀ other, other ≠ analysis_id → startRun r analysis_id other = r other := by
  refine ⟨?_, ?_, ?_⟩
  · simp [startRun, he, resetEntry]
  · simp [startRun, he, resetEntry]
  · intro other hother
    simp [startRun, hother]

/-- Witness for C10 with a concrete two-slot registry. -/
theorem startRun_frame_witness :
    startRun sampleRegistry "job1" "job1" =
      some { richEntry with status := "starting", progress := 0, total_moves := 0,
                            current_move := 0, results := none, error := none } ∧
    startRun sampleRegistry "job1" "job2" = sampleRegistry "job2" := by
  have h := startRun_frame sampleRegistry "job1" richEntry (by decide)
  exact ⟨h.1, h.2.2 "job2" (by decide)⟩

/-- C8 counterexample: the poll snapshot is the whole stored entry, so it
carries keys beyond status / progress / total_moves / current_move / error —
at minimum `results` (and `filename` for uploaded jobs). -/
theorem get_progress_claim_cex :
    get_progress sampleRegistry "job1" = PollResponse.ok richEntry ∧
    ¬ (pollSnapshotKeys richEntry ⊆
        ["status", "progress", "total_moves", "current_move", "error"]) := by
  constructor
  · decide
  · intro h
    have hmem : "results" ∈ pollSnapshotKeys richEntry := by decide
    have := h hmem
    simp at this

/-- C8 amended: polling an unknown id yields the "not found" signal;
polling a known id returns (read-only) exactly the stored entry, whose
serialized keys include status, progress (percent), total_moves (total),
current_move (completed) and error, but also `results` (and `filename` when
the upload route created the entry). -/
theorem get_progress_spec (r : Registry) (analysis_id : String) :
    (r analysis_id = none →
      get_progress r analysis_id = PollResponse.notFound "Analyse non trouvée") ∧
    (∀ e, r analysis_id = some e →
      get_progress r analysis_id = PollResponse.ok e ∧
      ["status", "progress", "total_moves", "current_move", "error"] ⊆
        pollSnapshotKeys e ∧
      "results" ∈ pollSnapshotKeys e) := by
  constructor
  · intro h
    simp [get_progress, h]
  · intro e he
    refine ⟨by simp [get_progress, he], ?_, ?_⟩
    · intro k hk
      simp only [List.mem_cons, List.not_mem_nil, or_false] at hk
      simp only [pollSnapshotKeys, List.mem_append, List.mem_cons]
      rcases hk with rfl | rfl | rfl | rfl | rfl <;> simp
    · simp [pollSnapshotKeys]

/-- Witness for the amended C8 on the concrete registry. -/
theorem get_progress_spec_witness :
    get_progress sampleRegistry "missing" = PollResponse.notFound "Analyse non trouvée" ∧
    (get_progress sampleRegistry "job1" = PollResponse.ok richEntry ∧
      ["status", "progress", "total_moves", "current_move", "error"] ⊆
        pollSnapshotKeys richEntry ∧
      "results" ∈ pollSnapshotKeys richEntry) :=
  ⟨(get_progress_spec sampleRegistry "missing").1 (by decide),
   (get_progress_spec sampleRegistry "job1").2 richEntry (by decide)⟩

/-- C3: the code's failure paths set only the `error` field of the job entry
and never move `status` to `"error"`.  On a corpus with zero parsed games the
entry keeps status `"starting"` with the fixed message and no results; on an
unexpected fault during analyzing it keeps status `"analyzing"` with the
captured message, the recorded progress, and no results.  (The spec's
`status == "error"` transition is the evident intent: `get_results` at line
356 branches on that very status, a branch this behaviour leaves dead.) -/
theorem error_paths_leave_status :
    ((runFinal none [] oracleDownEnv [] RunFault.noFault).error =
        some ERROR_EMPTY ∧
      (runFinal none [] oracleDownEnv [] RunFault.noFault).status = "starting" ∧
      (runFinal none [] oracleDownEnv [] RunFault.noFault).results = none) ∧
    ((runFinal none [gameOneMove] oracleDownEnv (collect [gameOneMove]).2
        (RunFault.duringAnalyzing 1 "boom")).error = some "boom" ∧
      (runFinal none [gameOneMove] oracleDownEnv (collect [gameOneMove]).2
        (RunFault.duringAnalyzing 1 "boom")).status = "analyzing" ∧
      (runFinal none [gameOneMove] oracleDownEnv (collect [gameOneMove]).2
        (RunFault.duringAnalyzing 1 "boom")).current_move = 1 ∧
      (runFinal none [gameOneMove] oracleDownEnv (collect [gameOneMove]).2
        (RunFault.duringAnalyzing 1 "boom")).results = none) := by
  decide

/-- Replaying a snoc: applying `ms ++ [m]` is applying `ms`, then `m`. -/
theorem pushAll_snoc (b : Board) (l : List Move) (m : Move) :
    b.pushAll (l ++ [m]) = (b.pushAll l).push m := by
  simp [Board.pushAll, List.foldl_append]

/-- After `k` plies from the standard initial position, it is White's turn
exactly when `k` is even and the fullmove number is `k / 2 + 1`. -/
theorem initial_replay (ms : List Move) :
    (Board.initial.pushAll ms).turn = decide (ms.length % 2 = 0) ∧
    (Board.initial.pushAll ms).fullmove = ms.length / 2 + 1 := by
  induction ms using List.reverseRecOn with
  | nil => constructor <;> rfl
  | append_singleton l m ih =>
    obtain ⟨iht, ihf⟩ := ih
    rw [pushAll_snoc]
    constructor
    · show (!(Board.initial.pushAll l).turn) = _
      rw [iht, ← decide_not]
      exact decide_eq_decide.mpr (by simp [List.length_append]; omega)
    · show (if (Board.initial.pushAll l).turn then _ else _ + 1) = _
      rw [iht, ihf]
      simp only [List.length_append, List.length_cons, List.length_nil]
      by_cases h : l.length % 2 = 0 <;> simp [h] <;> omega

/-- The source's per-game loop, in closed form: the `k`-th emitted task
(0-based) carries the board with the first `k` moves applied. -/
theorem positionsFrom_eq (gameNumber : Nat) :
    ∀ (ms : List Move) (b : Board),
      positionsFrom gameNumber b ms =
        (List.range ms.length).map fun k =>
          { board := b.pushAll (ms.take k)
            move_number := (b.pushAll (ms.take k)).fullmove
            turn := if (b.pushAll (ms.take k)).turn then "Blancs" else "Noirs"
            game_number := gameNumber } := by
  intro ms
  induction ms with
  | nil => intro b; rfl
  | cons m ms ih =>
    intro b
    rw [positionsFrom, List.length_cons, List.range_succ_eq_map,
      List.map_cons, List.map_map]
    congr 1
    rw [ih (b.push m)]
    apply List.map_congr_left
    intro k hk
    rfl

/-- From the standard initial board, the source loop matches the spec's
per-game enumeration with its closed-form 1-based move number `k / 2 + 1`
and alternating side to move. -/
theorem positionsFrom_initial (gameNumber : Nat) (g : Game) :
    positionsFrom gameNumber Board.initial g.moves = specTasks gameNumber g := by
  rw [positionsFrom_eq, specTasks]
  apply List.map_congr_left
  intro k hk
  have hk2 : k ≤ g.moves.length := le_of_lt (List.mem_range.mp hk)
  have htake : (g.moves.take k).length = k := by
    simp [List.length_take]
    omega
  obtain ⟨ht, hf⟩ := initial_replay (g.moves.take k)
  rw [htake] at ht hf
  simp [ht, hf]

/-- The first pass's task list, starting at any game count `n`. -/
theorem collectAux_tasks (corpus : List Game) :
    ∀ n, (collectAux n corpus).2 = enumeratorSpecAux (n + 1) corpus := by
  induction corpus with
  | nil => intro n; rfl
  | cons g gs ih =>
    intro n
    simp only [collectAux, enumeratorSpecAux]
    rw [positionsFrom_initial, ih]

/-- C6: the task list of `analyze_pgn_async`'s first pass is exactly the
spec's enumeration — one task per mainline ply, in corpus order then ply
order, each capturing the board before the ply's move together with the
1-based move number, the side to move, and the owning game's number. -/
theorem enumerator_refines (corpus : List Game) :
    (collect corpus).2 = enumeratorSpec corpus := by
  rw [collect, enumeratorSpec]
  exact collectAux_tasks corpus 0

/-- Round-to-nearest never overshoots by more than half. -/
theorem rnInt_le (x : ℚ) : (rnInt x : ℚ) ≤ x + 1/2 := by
  have h1 := Int.floor_le x
  have h2 := Int.lt_floor_add_one x
  unfold rnInt
  split_ifs with ha hb hc <;> push_cast <;> linarith

/-- Round-to-nearest never undershoots by more than half. -/
theorem le_rnInt (x : ℚ) : x - 1/2 ≤ (rnInt x : ℚ) := by
  have h1 := Int.floor_le x
  have h2 := Int.lt_floor_add_one x
  unfold rnInt
  split_ifs with ha hb hc <;> push_cast <;> linarith

/-- Round-to-nearest (ties to even) is monotone. -/
theorem rnInt_mono {x y : ℚ} (h : x ≤ y) : rnInt x ≤ rnInt y := by
  by_contra hc
  push_neg at hc
  have h1 := rnInt_le x
  have h2 := le_rnInt y
  have h3 : (rnInt y : ℚ) + 1 ≤ (rnInt x : ℚ) := by exact_mod_cast hc
  have hxy : y ≤ x := by linarith
  have hxy2 : x = y := le_antisymm h hxy
  subst hxy2
  exact absurd rfl (Int.ne_of_lt hc).symm

/-- Integers round to themselves. -/
theorem rnInt_intCast (n : ℤ) : rnInt (n : ℚ) = n := by
  unfold rnInt
  rw [Int.floor_intCast]
  rw [if_pos (by norm_num)]

/-- Rounding preserves non-negativity. -/
theorem rnInt_nonneg {x : ℚ} (hx : 0 ≤ x) : 0 ≤ rnInt x := by
  have h := le_rnInt x
  by_contra hneg
  push_neg at hneg
  have : (rnInt x : ℚ) ≤ -1 := by exact_mod_cast Int.le_sub_one_of_lt hneg
  linarith

/-- Evaluation rule: a value in the lower half of a unit interval rounds to
the interval's left end. -/
theorem rnInt_eq_of_lt_half {x : ℚ} {n : ℤ} (h1 : (n:ℚ) ≤ x) (h2 : x < (n:ℚ) + 1/2) :
    rnInt x = n := by
  have hf : ⌊x⌋ = n := by
    rw [Int.floor_eq_iff]
    exact ⟨h1, by linarith⟩
  unfold rnInt
  rw [hf, if_pos (by linarith)]

/-- Uniqueness of the integer logarithm from the bracketing powers. -/
theorem int_log_eq_of {b : ℕ} (hb : 1 < b) {r : ℚ} {z : ℤ} (hr : 0 < r)
    (h1 : (b : ℚ) ^ z ≤ r) (h2 : r < (b : ℚ) ^ (z + 1)) : Int.log b r = z := by
  have ha := Int.zpow_log_le_self hb hr
  have hbb := Int.lt_zpow_succ_log_self hb r
  have hb1 : (1 : ℚ) < b := by exact_mod_cast hb
  have hz1 : z < Int.log b r + 1 :=
    (zpow_lt_zpow_iff_right₀ hb1).mp (lt_of_le_of_lt h1 hbb)
  have hz2 : Int.log b r < z + 1 :=
    (zpow_lt_zpow_iff_right₀ hb1).mp (lt_of_le_of_lt ha h2)
  omega

/-- The grid unit is positive. -/
theorem ulpOf_pos (x : ℚ) : 0 < ulpOf x := zpow_pos (by norm_num) _

/-- Rounding a non-negative value to the grid stays non-negative. -/
theorem roundPos_nonneg {x : ℚ} (hx : 0 ≤ x) : 0 ≤ roundPos x := by
  unfold roundPos
  have hu := ulpOf_pos x
  have h2 := rnInt_nonneg (div_nonneg hx hu.le)
  have h3 : (0 : ℚ) ≤ (rnInt (x / ulpOf x) : ℚ) := by exact_mod_cast h2
  exact mul_nonneg h3 hu.le

/-- Grid rounding is monotone on positive values: within one binade by
monotonicity of `rnInt`, across binades through the representable binade
boundary. -/
theorem roundPos_mono {x y : ℚ} (hx : 0 < x) (hxy : x ≤ y) :
    roundPos x ≤ roundPos y := by
  have hy : 0 < y := lt_of_lt_of_le hx hxy
  have hlog : Int.log 2 x ≤ Int.log 2 y := Int.log_mono_right hx hxy
  rcases eq_or_lt_of_le hlog with heq | hlt
  · unfold roundPos ulpOf
    rw [heq]
    have hu : (0:ℚ) < (2:ℚ) ^ (Int.log 2 y - 52) := zpow_pos (by norm_num) _
    have hdiv : x / (2:ℚ) ^ (Int.log 2 y - 52) ≤ y / (2:ℚ) ^ (Int.log 2 y - 52) :=
      div_le_div_of_nonneg_right hxy hu.le
    have hcast : ((rnInt (x / (2:ℚ) ^ (Int.log 2 y - 52)) : ℤ) : ℚ) ≤
        ((rnInt (y / (2:ℚ) ^ (Int.log 2 y - 52)) : ℤ) : ℚ) := by
      exact_mod_cast rnInt_mono hdiv
    exact mul_le_mul_of_nonneg_right hcast hu.le
  · have hx_top : roundPos x ≤ (2:ℚ) ^ (Int.log 2 x + 1) := by
      unfold roundPos ulpOf
      have hu : (0:ℚ) < (2:ℚ) ^ (Int.log 2 x - 52) := zpow_pos (by norm_num) _
      have hxlt : x < (2:ℚ) ^ (Int.log 2 x + 1) := Int.lt_zpow_succ_log_self (by norm_num) x
      have hdiv : x / (2:ℚ) ^ (Int.log 2 x - 52) ≤ (2:ℚ) ^ (53 : ℤ) := by
        rw [div_le_iff₀ hu, ← zpow_add₀ (by norm_num : (2:ℚ) ≠ 0)]
        have he : (53 : ℤ) + (Int.log 2 x - 52) = Int.log 2 x + 1 := by ring
        rw [he]
        exact hxlt.le
      have hint : ((2:ℚ) ^ (53:ℤ)) = ((2^53 : ℤ) : ℚ) := by norm_num
      have h53 := rnInt_mono hdiv
      rw [hint, rnInt_intCast] at h53
      have hcast : ((rnInt (x / (2:ℚ) ^ (Int.log 2 x - 52)) : ℤ) : ℚ) ≤ ((2^53 : ℤ) : ℚ) := by
        exact_mod_cast h53
      calc (rnInt (x / (2:ℚ) ^ (Int.log 2 x - 52)) : ℚ) * (2:ℚ) ^ (Int.log 2 x - 52)
          ≤ ((2^53 : ℤ) : ℚ) * (2:ℚ) ^ (Int.log 2 x - 52) :=
            mul_le_mul_of_nonneg_right hcast hu.le
        _ = (2:ℚ) ^ (Int.log 2 x + 1) := by
            rw [← hint, ← zpow_add₀ (by norm_num : (2:ℚ) ≠ 0)]
            congr 1
            omega
    have hy_bot : (2:ℚ) ^ (Int.log 2 y) ≤ roundPos y := by
      unfold roundPos ulpOf
      have hu : (0:ℚ) < (2:ℚ) ^ (Int.log 2 y - 52) := zpow_pos (by norm_num) _
      have hyge : (2:ℚ) ^ (Int.log 2 y) ≤ y := Int.zpow_log_le_self (by norm_num) hy
      have hdiv : (2:ℚ) ^ (52 : ℤ) ≤ y / (2:ℚ) ^ (Int.log 2 y - 52) := by
        rw [le_div_iff₀ hu, ← zpow_add₀ (by norm_num : (2:ℚ) ≠ 0)]
        have he : (52 : ℤ) + (Int.log 2 y - 52) = Int.log 2 y := by ring
        rw [he]
        exact hyge
      have hint : ((2:ℚ) ^ (52:ℤ)) = ((2^52 : ℤ) : ℚ) := by norm_num
      have h52 := rnInt_mono hdiv
      rw [hint, rnInt_intCast] at h52
      have hcast : ((2^52 : ℤ) : ℚ) ≤ ((rnInt (y / (2:ℚ) ^ (Int.log 2 y - 52)) : ℤ) : ℚ) := by
        exact_mod_cast h52
      calc (2:ℚ) ^ (Int.log 2 y)
          = ((2^52 : ℤ) : ℚ) * (2:ℚ) ^ (Int.log 2 y - 52) := by
            rw [← hint, ← zpow_add₀ (by norm_num : (2:ℚ) ≠ 0)]
            congr 1
            omega
        _ ≤ _ := mul_le_mul_of_nonneg_right hcast hu.le
    calc roundPos x ≤ (2:ℚ) ^ (Int.log 2 x + 1) := hx_top
      _ ≤ (2:ℚ) ^ (Int.log 2 y) := zpow_le_zpow_right₀ (by norm_num) (by omega)
      _ ≤ roundPos y := hy_bot

/-- Binary64 rounding preserves non-negativity. -/
theorem roundDouble_nonneg {x : ℚ} (hx : 0 ≤ x) : 0 ≤ roundDouble x := by
  unfold roundDouble
  split_ifs with h1 h2
  · exact le_refl 0
  · exact absurd h2 (not_lt.mpr hx)
  · exact roundPos_nonneg hx

/-- Binary64 rounding is monotone on non-negative values. -/
theorem roundDouble_mono {x y : ℚ} (hx : 0 ≤ x) (hxy : x ≤ y) :
    roundDouble x ≤ roundDouble y := by
  rcases eq_or_lt_of_le hx with h0 | h0
  · rw [show x = 0 from h0.symm, show roundDouble 0 = 0 from by unfold roundDouble; simp]
    exact roundDouble_nonneg (le_trans hx hxy)
  · unfold roundDouble
    rw [if_neg (ne_of_gt h0), if_neg (not_lt.mpr h0.le),
      if_neg (ne_of_gt (lt_of_lt_of_le h0 hxy)),
      if_neg (not_lt.mpr (le_trans h0.le hxy))]
    exact roundPos_mono h0 hxy

/-- A value already on the grid rounds to itself. -/
theorem roundPos_eq_self {x : ℚ} {m e : ℤ} (hlog : Int.log 2 x = e)
    (hm : x = (m : ℚ) * (2:ℚ) ^ (e - 52)) : roundPos x = x := by
  unfold roundPos ulpOf
  rw [hlog]
  have hu : ((2:ℚ) ^ (e - 52)) ≠ 0 := (zpow_pos (by norm_num) _).ne'
  conv_lhs => rw [hm]
  rw [mul_div_assoc, div_self hu, mul_one, rnInt_intCast]
  exact hm.symm

/-- The double 1.0 is exact. -/
theorem roundDouble_one : roundDouble (1 : ℚ) = 1 := by
  unfold roundDouble
  rw [if_neg (by norm_num), if_neg (by norm_num)]
  exact roundPos_eq_self (m := 2^52) (Int.log_one_right 2) (by norm_num)

theorem log_hundred : Int.log 2 (100 : ℚ) = 6 :=
  int_log_eq_of (by norm_num) (by norm_num) (by norm_num) (by norm_num)

/-- The double 100.0 is exact. -/
theorem roundDouble_hundred : roundDouble (100 : ℚ) = 100 := by
  unfold roundDouble
  rw [if_neg (by norm_num), if_neg (by norm_num)]
  exact roundPos_eq_self (m := 100 * 2^46) log_hundred (by push_cast; norm_num)

theorem log_29_100 : Int.log 2 ((29:ℚ)/100) = -2 :=
  int_log_eq_of (by norm_num) (by norm_num) (by norm_num) (by norm_num)

/-- The double closest to 29/100 lies just below it. -/
theorem roundDouble_29_100 :
    roundDouble ((29:ℚ)/100) = 5224175567749775/18014398509481984 := by
  unfold roundDouble
  rw [if_neg (by norm_num), if_neg (by norm_num)]
  unfold roundPos ulpOf
  rw [log_29_100]
  rw [show ((-2:ℤ) - 52) = -54 from rfl]
  rw [show ((29:ℚ)/100) / (2:ℚ)^(-54:ℤ) = 29 * 18014398509481984 / 100 from by
    rw [zpow_neg, div_eq_mul_inv, inv_inv]
    norm_num]
  rw [rnInt_eq_of_lt_half (n := 5224175567749775) (by norm_num) (by norm_num)]
  norm_num

theorem log_29_100_second : Int.log 2 ((5224175567749775:ℚ)/18014398509481984 * 100) = 4 :=
  int_log_eq_of (by norm_num) (by norm_num) (by norm_num) (by norm_num)

/-- Multiplying that double by 100 rounds to a value strictly below 29. -/
theorem roundDouble_29_100_second :
    roundDouble ((5224175567749775:ℚ)/18014398509481984 * 100) =
      8162774324609023/281474976710656 := by
  unfold roundDouble
  rw [if_neg (by norm_num), if_neg (by norm_num)]
  unfold roundPos ulpOf
  rw [log_29_100_second]
  rw [show ((4:ℤ) - 52) = -48 from rfl]
  rw [show ((5224175567749775:ℚ)/18014398509481984 * 100) / (2:ℚ)^(-48:ℤ) =
      130604389193744375 / 16 from by
    rw [zpow_neg, div_eq_mul_inv, inv_inv]
    norm_num]
  rw [rnInt_eq_of_lt_half (n := 8162774324609023) (by norm_num) (by norm_num)]
  norm_num

/-- Python evaluates `int(29/100*100)` to 28: the float pipeline loses one
percent against the exact floor 29. -/
theorem progressOf_29_100 : progressOf 29 100 = 28 := by
  unfold progressOf
  rw [show ((29:ℕ):ℚ) / ((100:ℕ):ℚ) = (29:ℚ)/100 from by push_cast; ring]
  rw [roundDouble_29_100, roundDouble_29_100_second]
  norm_num [Int.floor_eq_iff]

/-- The stored percentage is never negative. -/
theorem progressOf_nonneg (k t : Nat) : 0 ≤ progressOf k t := by
  unfold progressOf
  refine Int.le_floor.mpr ?_
  push_cast
  exact roundDouble_nonneg
    (mul_nonneg
      (roundDouble_nonneg (div_nonneg (Nat.cast_nonneg k) (Nat.cast_nonneg t)))
      (by norm_num))

/-- Zero completions give zero percent. -/
theorem progressOf_zero (t : Nat) : progressOf 0 t = 0 := by
  unfold progressOf
  rw [Nat.cast_zero, zero_div,
    show roundDouble 0 = 0 from by unfold roundDouble; simp, zero_mul,
    show roundDouble 0 = 0 from by unfold roundDouble; simp]
  exact Int.floor_zero

/-- The stored percentage is monotone in the completion count. -/
theorem progressOf_mono {a b : Nat} (t : Nat) (h : a ≤ b) :
    progressOf a t ≤ progressOf b t := by
  unfold progressOf
  apply Int.floor_mono
  apply roundDouble_mono
    (mul_nonneg
      (roundDouble_nonneg (div_nonneg (Nat.cast_nonneg a) (Nat.cast_nonneg t)))
      (by norm_num))
  apply mul_le_mul_of_nonneg_right _ (by norm_num : (0:ℚ) ≤ 100)
  apply roundDouble_mono (div_nonneg (Nat.cast_nonneg a) (Nat.cast_nonneg t))
  exact div_le_div_of_nonneg_right (by exact_mod_cast h) (Nat.cast_nonneg t)

/-- All tasks of a non-empty job completed give exactly 100 percent:
`total/total` is the exact double 1.0 and `1.0 * 100` the exact 100.0. -/
theorem progressOf_full {t : Nat} (ht : t ≠ 0) : progressOf t t = 100 := by
  unfold progressOf
  rw [div_self (Nat.cast_ne_zero.mpr ht : ((t:ℚ) ≠ 0)), roundDouble_one, one_mul,
    roundDouble_hundred]
  norm_num

/-- Whatever the prior entry held, the reset entry starts from zeros. -/
theorem resetEntry_zeros (p : Option Entry) :
    (resetEntry p).status = "starting" ∧ (resetEntry p).progress = 0 ∧
    (resetEntry p).total_moves = 0 ∧ (resetEntry p).current_move = 0 := by
  cases p <;> simp [resetEntry]

/-- Every state of the post-`open` part of a run satisfies the progress
invariants, provided the run starts from a zeroed entry and the completion
order covers exactly the submitted tasks. -/
theorem inv_runStatesCore (e0 : Entry) (corpus : List Game)
    (env : PositionTask → Oracle) (order : List PositionTask) (fault : RunFault)
    (h0c : e0.current_move = 0) (h0t : e0.total_moves = 0) (h0p : e0.progress = 0)
    (hlen : order.length = (collect corpus).2.length) :
    ∀ s ∈ runStatesCore e0 corpus env order fault,
      s.current_move ≤ s.total_moves ∧ 0 ≤ s.progress ∧
      s.progress = progressOf s.current_move s.total_moves := by
  intro s hs
  by_cases hemp : (collect corpus).1.isEmpty = true
  · rw [runStatesCore, if_pos hemp] at hs
    simp only [List.mem_cons, List.not_mem_nil, or_false] at hs
    rcases hs with rfl | rfl <;>
      simp [h0c, h0t, h0p, progressOf_zero]
  · rw [runStatesCore, if_neg hemp] at hs
    cases fault with
    | duringAnalyzing k msg =>
      simp only [loopEntries, List.mem_append, List.mem_cons, List.mem_map,
        List.mem_range, List.not_mem_nil, or_false] at hs
      rcases hs with ((rfl | rfl | rfl) | ⟨i, hi, rfl⟩) | rfl
      · simp [h0c, h0t, h0p, progressOf_zero]
      · refine ⟨?_, ?_, ?_⟩ <;> simp [h0c, h0p, progressOf_zero]
      · refine ⟨?_, ?_, ?_⟩ <;> simp [h0c, h0p, progressOf_zero]
      · refine ⟨?_, progressOf_nonneg _ _, rfl⟩
        simp only [stepEntry]
        have h1 : min k order.length ≤ order.length := Nat.min_le_right _ _
        omega
      · refine ⟨?_, progressOf_nonneg _ _, rfl⟩
        simp only [stepEntry]
        have h1 : min k order.length ≤ order.length := Nat.min_le_right _ _
        omega
    | noFault =>
      simp only [loopEntries, List.mem_append, List.mem_cons, List.mem_map,
        List.mem_range, List.not_mem_nil, or_false] at hs
      rcases hs with ((rfl | rfl | rfl) | ⟨i, hi, rfl⟩) | rfl | rfl
      · simp [h0c, h0t, h0p, progressOf_zero]
      · refine ⟨?_, ?_, ?_⟩ <;> simp [h0c, h0p, progressOf_zero]
      · refine ⟨?_, ?_, ?_⟩ <;> simp [h0c, h0p, progressOf_zero]
      · refine ⟨?_, progressOf_nonneg _ _, rfl⟩
        simp only [stepEntry]
        omega
      · refine ⟨?_, progressOf_nonneg _ _, rfl⟩
        simp only [stepEntry]
        omega
      · refine ⟨?_, progressOf_nonneg _ _, rfl⟩
        simp only [stepEntry]
        omega
    | atOpen msg =>
      simp only [loopEntries, List.mem_append, List.mem_cons, List.mem_map,
        List.mem_range, List.not_mem_nil, or_false] at hs
      rcases hs with ((rfl | rfl | rfl) | ⟨i, hi, rfl⟩) | rfl | rfl
      · simp [h0c, h0t, h0p, progressOf_zero]
      · refine ⟨?_, ?_, ?_⟩ <;> simp [h0c, h0p, progressOf_zero]
      · refine ⟨?_, ?_, ?_⟩ <;> simp [h0c, h0p, progressOf_zero]
      · refine ⟨?_, progressOf_nonneg _ _, rfl⟩
        simp only [stepEntry]
        omega
      · refine ⟨?_, progressOf_nonneg _ _, rfl⟩
        simp only [stepEntry]
        omega
      · refine ⟨?_, progressOf_nonneg _ _, rfl⟩
        simp only [stepEntry]
        omega

/-- The generic shape of an analyzing-phase trace is monotone in the stored
percentage: three zeroed setup states, one state per completion event, and a
tail of states all carrying the last percentage. -/
theorem pairwise_progress_states (e0 e1 e2 : Entry) (total n : Nat)
    (tail : List Entry)
    (h0p : e0.progress = 0) (h1p : e1.progress = 0) (h2p : e2.progress = 0)
    (htail : ∀ x ∈ tail, x.progress = progressOf n total)
    (htp : tail.Pairwise fun a b => a.progress ≤ b.progress) :
    ([e0, e1, e2] ++ loopEntries e2 total n ++ tail).Pairwise
      (fun a b => a.progress ≤ b.progress) := by
  have hloop : ∀ x ∈ loopEntries e2 total n,
      ∃ i, i < n ∧ x.progress = progressOf (i + 1) total := by
    intro x hx
    simp only [loopEntries, List.mem_map, List.mem_range] at hx
    obtain ⟨i, hi, rfl⟩ := hx
    exact ⟨i, hi, rfl⟩
  refine List.pairwise_append.mpr ⟨List.pairwise_append.mpr ⟨?_, ?_, ?_⟩, htp, ?_⟩
  · simp [List.pairwise_cons, h0p, h1p, h2p]
  · rw [loopEntries, List.pairwise_map]
    refine (List.pairwise_lt_range n).imp ?_
    intro i j hij
    simpa [stepEntry] using progressOf_mono total (by omega : i + 1 ≤ j + 1)
  · intro a ha b hb
    obtain ⟨i, -, hbp⟩ := hloop b hb
    have hap : a.progress = 0 := by
      simp only [List.mem_cons, List.not_mem_nil, or_false] at ha
      rcases ha with rfl | rfl | rfl <;> assumption
    rw [hap, hbp]
    exact progressOf_nonneg _ _
  · intro a ha c hc
    rw [htail c hc]
    rcases List.mem_append.mp ha with ha | ha
    · have hap : a.progress = 0 := by
        simp only [List.mem_cons, List.not_mem_nil, or_false] at ha
        rcases ha with rfl | rfl | rfl <;> assumption
      rw [hap]
      exact progressOf_nonneg _ _
    · obtain ⟨i, hi, hap⟩ := hloop a ha
      rw [hap]
      exact progressOf_mono total (by omega)

/-- The whole post-`open` trace is monotone in the stored percentage. -/
theorem mono_runStatesCore (e0 : Entry) (corpus : List Game)
    (env : PositionTask → Oracle) (order : List PositionTask) (fault : RunFault)
    (h0p : e0.progress = 0) :
    (runStatesCore e0 corpus env order fault).Pairwise
      (fun a b => a.progress ≤ b.progress) := by
  by_cases hemp : (collect corpus).1.isEmpty = true
  · rw [runStatesCore, if_pos hemp]
    simp [List.pairwise_cons, h0p]
  · rw [runStatesCore, if_neg hemp]
    cases fault with
    | duringAnalyzing k msg =>
      exact pairwise_progress_states _ _ _ _ _ _
        h0p (by simp [h0p]) (by simp [h0p])
        (by intro x hx
            simp only [List.mem_cons, List.not_mem_nil, or_false] at hx
            subst hx
            rfl)
        (List.pairwise_singleton _ _)
    | noFault =>
      exact pairwise_progress_states _ _ _ _ _ _
        h0p (by simp [h0p]) (by simp [h0p])
        (by intro x hx
            simp only [List.mem_cons, List.not_mem_nil, or_false] at hx
            rcases hx with rfl | rfl <;> rfl)
        (by simp [List.pairwise_cons, stepEntry])
    | atOpen msg =>
      exact pairwise_progress_states _ _ _ _ _ _
        h0p (by simp [h0p]) (by simp [h0p])
        (by intro x hx
            simp only [List.mem_cons, List.not_mem_nil, or_false] at hx
            rcases hx with rfl | rfl <;> rfl)
        (by simp [List.pairwise_cons, stepEntry])

/-- The 100-ply corpus yields 100 position tasks. -/
theorem collect_game100_len : (collect [game100]).2.length = 100 := by
  show (positionsFrom 1 Board.initial game100.moves ++ []).length = 100
  rw [List.append_nil, positionsFrom_eq]
  simp [game100]

/-- C4 counterexample: in a fault-free job over the 100-ply corpus, the state
observable after 29 completions stores the percentage 28 — the value Python's
float expression `int(29/100*100)` produces — while the claim's exact
`floor(completed/total*100)` is 29.  The displayed percentage therefore does
not always equal the exact floor. -/
theorem job_progress_claim_cex :
    (stepEntry { resetEntry none with total_moves := 100, status := "analyzing" } 100 29
        ∈ runTrace none [game100] oracleDownEnv (collect [game100]).2 RunFault.noFault) ∧
    (stepEntry { resetEntry none with total_moves := 100, status := "analyzing" } 100 29).progress
      = 28 ∧
    floorPercent
      (stepEntry { resetEntry none with total_moves := 100, status := "analyzing" } 100 29).current_move
      (stepEntry { resetEntry none with total_moves := 100, status := "analyzing" } 100 29).total_moves
      = 29 ∧
    (stepEntry { resetEntry none with total_moves := 100, status := "analyzing" } 100 29).progress
      ≠ floorPercent
        (stepEntry { resetEntry none with total_moves := 100, status := "analyzing" } 100 29).current_move
        (stepEntry { resetEntry none with total_moves := 100, status := "analyzing" } 100 29).total_moves := by
  have h28 : (28 : ℕ) ∈ List.range ((collect [game100]).2.length) :=
    List.mem_range.mpr (by rw [collect_game100_len]; norm_num)
  refine ⟨?_, ?_, ?_, ?_⟩
  · exact List.mem_append.mpr (Or.inl (List.mem_append.mpr (Or.inr
      (List.mem_map.mpr ⟨28, h28, rfl⟩))))
  · show progressOf 29 100 = 28
    exact progressOf_29_100
  · show floorPercent 29 100 = 29
    rw [floorPercent]
    norm_num
  · show progressOf 29 100 ≠ floorPercent 29 100
    rw [progressOf_29_100, floorPercent]
    norm_num

/-- C4 amended: throughout a job's lifetime — i.e. in every registry-entry
state any concurrent poll can observe, under any fault and any completion
order of the submitted tasks — the completed count never exceeds the total,
the stored percentage is never negative and always equals the value of the
source's float expression `int(completed/total*100)` (binary64 semantics,
which can fall one below the exact `floor(completed*100/total)`), and the
percentage is monotonically non-decreasing along the trace. -/
theorem job_progress_invariants (prior : Option Entry) (corpus : List Game)
    (env : PositionTask → Oracle) (order : List PositionTask) (fault : RunFault)
    (hperm : order.Perm (collect corpus).2) :
    (∀ s ∈ runTrace prior corpus env order fault,
       s.current_move ≤ s.total_moves ∧ 0 ≤ s.progress ∧
       s.progress = progressOf s.current_move s.total_moves) ∧
    (runTrace prior corpus env order fault).Pairwise
      (fun a b => a.progress ≤ b.progress) := by
  obtain ⟨hst, hpr, htm, hcm⟩ := resetEntry_zeros prior
  have hlen : order.length = (collect corpus).2.length := hperm.length_eq
  cases fault with
  | atOpen msg =>
    constructor
    · intro s hs
      simp only [runTrace, List.mem_cons, List.not_mem_nil, or_false] at hs
      rcases hs with rfl | rfl <;> simp [hpr, htm, hcm, progressOf_zero]
    · simp [runTrace, List.pairwise_cons, hpr]
  | noFault =>
    rw [show runTrace prior corpus env order RunFault.noFault =
        runStatesCore (resetEntry prior) corpus env order RunFault.noFault from rfl]
    exact ⟨inv_runStatesCore _ _ _ _ _ hcm htm hpr hlen,
      mono_runStatesCore _ _ _ _ _ hpr⟩
  | duringAnalyzing k msg =>
    rw [show runTrace prior corpus env order (RunFault.duringAnalyzing k msg) =
        runStatesCore (resetEntry prior) corpus env order
          (RunFault.duringAnalyzing k msg) from rfl]
    exact ⟨inv_runStatesCore _ _ _ _ _ hcm htm hpr hlen,
      mono_runStatesCore _ _ _ _ _ hpr⟩

/-- Witness for C4: the invariants hold at an observable mid-analysis state
of a concrete one-task job. -/
theorem job_progress_invariants_witness :
    (stepEntry { resetEntry none with total_moves := 1, status := "analyzing" } 1 1
        ∈ runTrace none [gameOneMove] oracleDownEnv (collect [gameOneMove]).2
          RunFault.noFault) ∧
    ((stepEntry { resetEntry none with total_moves := 1, status := "analyzing" } 1 1).current_move ≤
      (stepEntry { resetEntry none with total_moves := 1, status := "analyzing" } 1 1).total_moves ∧
     0 ≤ (stepEntry { resetEntry none with total_moves := 1, status := "analyzing" } 1 1).progress ∧
     (stepEntry { resetEntry none with total_moves := 1, status := "analyzing" } 1 1).progress =
       progressOf
         (stepEntry { resetEntry none with total_moves := 1, status := "analyzing" } 1 1).current_move
         (stepEntry { resetEntry none with total_moves := 1, status := "analyzing" } 1 1).total_moves) := by
  have hmem : stepEntry { resetEntry none with total_moves := 1, status := "analyzing" } 1 1
      ∈ runTrace none [gameOneMove] oracleDownEnv (collect [gameOneMove]).2
        RunFault.noFault :=
    List.mem_append.mpr (Or.inl (List.mem_append.mpr (Or.inr
      (List.mem_map.mpr ⟨0, List.mem_range.mpr (by decide), rfl⟩))))
  exact ⟨hmem,
    (job_progress_invariants none [gameOneMove] oracleDownEnv
      (collect [gameOneMove]).2 RunFault.noFault (List.Perm.refl _)).1 _ hmem⟩

/-- C5 counterexample: a corpus whose one game has no mainline moves gives a
fault-free job over N = 0 positions; the job finishes `completed` with
`completed == total == 0` and results stored, but the displayed percentage
stays 0, not 100. -/
theorem job_completion_claim_cex :
    (runFinal none [gameNoMoves] oracleDownEnv [] RunFault.noFault).status =
      "completed" ∧
    (runFinal none [gameNoMoves] oracleDownEnv [] RunFault.noFault).current_move =
      (collect [gameNoMoves]).2.length ∧
    (runFinal none [gameNoMoves] oracleDownEnv [] RunFault.noFault).results ≠ none ∧
    ¬ ((runFinal none [gameNoMoves] oracleDownEnv [] RunFault.noFault).progress =
      100) := by
  refine ⟨rfl, rfl, by decide, ?_⟩
  show ¬ (progressOf 0 0 = 100)
  rw [progressOf_zero]
  decide

/-- C5 amended: for every job over `N ≥ 1` enumerated positions that runs
without an orchestrator fault, once all `N` tasks complete the entry has
`completed == total == N`, `progress == 100`, status `"completed"`, and the
aggregated games as results.  (For `N = 0` the job still completes with
results, but the percentage stays 0 since the update loop never runs.) -/
theorem job_completion (prior : Option Entry) (corpus : List Game)
    (env : PositionTask → Oracle) (order : List PositionTask)
    (hgames : (collect corpus).1 ≠ [])
    (hperm : order.Perm (collect corpus).2)
    (htasks : (collect corpus).2 ≠ []) :
    (runFinal prior corpus env order RunFault.noFault).status = "completed" ∧
    (runFinal prior corpus env order RunFault.noFault).current_move =
      (collect corpus).2.length ∧
    (runFinal prior corpus env order RunFault.noFault).total_moves =
      (collect corpus).2.length ∧
    (runFinal prior corpus env order RunFault.noFault).progress = 100 ∧
    (runFinal prior corpus env order RunFault.noFault).results =
      some (aggregateAll (collect corpus).1 env order) := by
  have hlen : order.length = (collect corpus).2.length := hperm.length_eq
  have hemp : ¬ ((collect corpus).1.isEmpty = true) := by
    cases hc : (collect corpus).1 with
    | nil => exact absurd hc hgames
    | cons g gs => simp [hc]
  have htot : (collect corpus).2.length ≠ 0 := by
    intro h
    exact htasks (List.length_eq_zero.mp h)
  have hfin : runFinal prior corpus env order RunFault.noFault =
      { stepEntry
          { resetEntry prior with
              total_moves := (collect corpus).2.length
              status := "analyzing" }
          (collect corpus).2.length order.length with
          status := "completed"
          results := some (aggregateAll (collect corpus).1 env order) } := by
    rw [show runFinal prior corpus env order RunFault.noFault =
        runFinalCore (resetEntry prior) corpus env order RunFault.noFault from rfl,
      runFinalCore, if_neg hemp]
  rw [hfin]
  refine ⟨rfl, ?_, rfl, ?_, rfl⟩
  · show order.length = (collect corpus).2.length
    exact hlen
  · show progressOf order.length (collect corpus).2.length = 100
    rw [hlen]
    exact progressOf_full htot

/-- Witness for the amended C5 on a concrete one-game, one-ply corpus. -/
theorem job_completion_witness :
    (runFinal none [gameOneMove] oracleDownEnv (collect [gameOneMove]).2
      RunFault.noFault).status = "completed" ∧
    (runFinal none [gameOneMove] oracleDownEnv (collect [gameOneMove]).2
      RunFault.noFault).current_move = (collect [gameOneMove]).2.length ∧
    (runFinal none [gameOneMove] oracleDownEnv (collect [gameOneMove]).2
      RunFault.noFault).total_moves = (collect [gameOneMove]).2.length ∧
    (runFinal none [gameOneMove] oracleDownEnv (collect [gameOneMove]).2
      RunFault.noFault).progress = 100 ∧
    (runFinal none [gameOneMove] oracleDownEnv (collect [gameOneMove]).2
      RunFault.noFault).results =
      some (aggregateAll (collect [gameOneMove]).1 oracleDownEnv
        (collect [gameOneMove]).2) :=
  job_completion none [gameOneMove] oracleDownEnv (collect [gameOneMove]).2
    (by decide) (List.Perm.refl _) (by decide)

end ChessAnalyser
